import Mathlib

/-!
Shallow embedding of the quota-aware request dispatch core of the
`infofitsoftware/chatbot` repository:

* `src/rate_limiter.py` — the per-key sliding-window admission controller
  (`RateLimiter.is_allowed`, `RateLimiter.get_retry_after`, the module-level
  instance `rate_limiter`);
* `src/gemini_client.py` — `GeminiClient.generate_content`, which classifies
  the HTTP outcome of the external generative-API call;
* `src/app_alternative.py` — the `chat` route handler.

Timestamps are `time.time()` floats in the source; they are embedded as
rationals (`ℚ`).  Configuration integers (`max_requests`, `time_window`) are
embedded as `ℤ`.  Python's `int()` conversion truncates toward zero; it is
embedded as `pyTrunc`.  The per-key map `self.requests` is a
`defaultdict(deque)`; it is embedded as an association list together with the
defaultdict read `ddGet`, which inserts an empty window on a miss exactly as
`defaultdict.__getitem__` does.
-/

/-- Python `int()` on a float: truncation toward zero. -/
def pyTrunc (x : ℚ) : ℤ := if x < 0 then ⌈x⌉ else ⌊x⌋

/-- The `RateLimiter` class of `src/rate_limiter.py`: the two constructor-time
configuration fields and the per-key request-timestamp map
`self.requests : Dict[str, Deque[float]]`. -/
structure RateLimiter where
  max_requests : ℤ
  time_window : ℤ
  requests : List (String × List ℚ)
deriving Repr, DecidableEq

/-- `RateLimiter()` with no explicit arguments: the constructor's defaults are
`max_requests = 10`, `time_window = 60`, and `self.requests` starts empty. -/
def RateLimiter.defaultInit : RateLimiter :=
  { max_requests := 10, time_window := 60, requests := [] }

/-- The module-level shared instance of `src/rate_limiter.py` line 66:
`rate_limiter = RateLimiter(max_requests=5, time_window=60)`. -/
def rate_limiter : RateLimiter :=
  { max_requests := 5, time_window := 60, requests := [] }

/-- Dictionary lookup on the embedded key-to-window map. -/
def lookupWindow (m : List (String × List ℚ)) (key : String) : Option (List ℚ) :=
  (m.find? (fun p => p.1 = key)).map Prod.snd

/-- `defaultdict(deque).__getitem__`: reading `self.requests[key]` returns the
key's deque, inserting a fresh empty one into the map when the key is unseen. -/
def ddGet (m : List (String × List ℚ)) (key : String) :
    List ℚ × List (String × List ℚ) :=
  match lookupWindow m key with
  | some w => (w, m)
  | none => ([], m ++ [(key, [])])

/-- Writing back the (mutated-in-place in Python) deque of `key`. -/
def setWindow (m : List (String × List ℚ)) (key : String) (w : List ℚ) :
    List (String × List ℚ) :=
  m.map (fun p => if p.1 = key then (key, w) else p)

/-- The purge loop of `is_allowed`:
`while request_times and request_times[0] <= now - self.time_window:
request_times.popleft()`.  Popping from the left while the head is stale is
exactly `dropWhile`. -/
def purge (cutoff : ℚ) (ts : List ℚ) : List ℚ :=
  ts.dropWhile (fun t => decide (t ≤ cutoff))

/-- The body of `is_allowed` acting on a single key's deque: purge stale
timestamps, then admit (appending `now`) iff fewer than `max_requests`
remain. -/
def stepWindow (max_requests time_window : ℤ) (now : ℚ) (ts : List ℚ) :
    Bool × List ℚ :=
  let ts' := purge (now - time_window) ts
  if (ts'.length : ℤ) < max_requests then (true, ts' ++ [now])
  else (false, ts')

/-- The body of `get_retry_after` acting on a single key's deque: `0` for an
empty deque, otherwise
`max(0, int(self.time_window - (time.time() - oldest_request)))`. -/
def retryVal (time_window : ℤ) (now : ℚ) (ts : List ℚ) : ℤ :=
  match ts with
  | [] => 0
  | oldest :: _ => max 0 (pyTrunc ((time_window : ℚ) - (now - oldest)))

/-- `RateLimiter.is_allowed(key)` at current time `now`: returns the verdict
and the limiter after the call's side effects (the defaultdict insertion, the
purge, and the append on admission). -/
def RateLimiter.is_allowed (rl : RateLimiter) (key : String) (now : ℚ) :
    Bool × RateLimiter :=
  let tr := ddGet rl.requests key
  let r := stepWindow rl.max_requests rl.time_window now tr.1
  (r.1, { rl with requests := setWindow tr.2 key r.2 })

/-- `RateLimiter.get_retry_after(key)` at current time `now`.  Returns the
value and the limiter after the call's one side effect, the defaultdict read
(which inserts an empty deque for an unseen key and purges nothing). -/
def RateLimiter.get_retry_after (rl : RateLimiter) (key : String) (now : ℚ) :
    ℤ × RateLimiter :=
  let tr := ddGet rl.requests key
  (retryVal rl.time_window now tr.1, { rl with requests := tr.2 })

/-- The window currently recorded for `key` (empty when the key is unseen). -/
def windowOf (rl : RateLimiter) (key : String) : List ℚ :=
  (lookupWindow rl.requests key).getD []

/-- One admission check per event: `is_allowed(key)` issued at time `now`. -/
def runChecks (rl : RateLimiter) : List (String × ℚ) → RateLimiter
  | [] => rl
  | (k, t) :: evs => runChecks (rl.is_allowed k t).2 evs

/-- The timestamps recorded for `key` by the checks of the trace that returned
`True`, in order. -/
def admittedFor (rl : RateLimiter) (key : String) :
    List (String × ℚ) → List ℚ
  | [] => []
  | (k, t) :: evs =>
      let r := rl.is_allowed k t
      (if r.1 ∧ k = key then [t] else []) ++ admittedFor r.2 key evs

/-- The verdicts of a sequence of same-key checks at the given times. -/
def checksFor (rl : RateLimiter) (key : String) : List ℚ → List Bool
  | [] => []
  | t :: ts =>
      let r := rl.is_allowed key t
      r.1 :: checksFor r.2 key ts

/-- The limiter after a sequence of same-key checks at the given times. -/
def runFor (rl : RateLimiter) (key : String) : List ℚ → RateLimiter
  | [] => rl
  | t :: ts => runFor (rl.is_allowed key t).2 key ts

/-!
Embedding of `GeminiClient.generate_content` (`src/gemini_client.py`,
lines 22-73).  The network call `requests.post(...)` is abstracted as an
argument describing how the `try` block's external interaction went:

* `HttpOutcome.ok status data` — the POST completed with the given status
  code and (parsed) JSON body;
* `HttpOutcome.requestError` — `requests.exceptions.RequestException` was
  raised (connection failure or the 30-second timeout);
* `HttpOutcome.unexpectedError` — some other exception was raised inside the
  `try` block before the response was classified.

The JSON body is modelled only as deeply as the source inspects it:
`'candidates' in data` / non-emptiness, `'content' in candidate`,
`'parts' in candidate['content']`, the `[0]` index, and the `['text']` key.
A missing `'text'` key on the first part (KeyError) and an empty `parts`
list (IndexError) raise inside the `try` and land in the generic
`except Exception` branch, which is modelled inline.
-/

/-- One element of `candidate['content']['parts']`: its `'text'` key may be
absent. -/
structure GeminiPart where
  text : Option String
deriving Repr, DecidableEq

/-- `candidate['content']`: the `'parts'` key may be absent. -/
structure GeminiContent where
  parts : Option (List GeminiPart)
deriving Repr, DecidableEq

/-- One element of `data['candidates']`: the `'content'` key may be absent. -/
structure GeminiCandidate where
  content : Option GeminiContent
deriving Repr, DecidableEq

/-- The parsed JSON response body: the `'candidates'` key may be absent. -/
structure GeminiData where
  candidates : Option (List GeminiCandidate)
deriving Repr, DecidableEq

/-- How the external interaction inside `generate_content`'s `try` block
went. -/
inductive HttpOutcome where
  | ok (status : ℤ) (data : GeminiData)
  | requestError
  | unexpectedError
deriving Repr, DecidableEq

/-- The fixed message of the `except requests.exceptions.RequestException`
branch. -/
def connectionErrorMsg : String :=
  "I\'m sorry, I\'m having trouble connecting to the AI service."

/-- The fixed message of the generic `except Exception` branch. -/
def unexpectedErrorMsg : String :=
  "I\'m sorry, something went wrong. Please try again."

/-- The fixed message of the `status_code == 429` quota branch. -/
def quotaMsg : String :=
  "I\'m sorry, I\'ve reached my daily limit. Please try again later."

/-- The fixed message of the other-status error branch. -/
def apiErrorMsg : String :=
  "I\'m sorry, I\'m having trouble processing your request right now."

/-- `GeminiClient.generate_content` as a function of the external
interaction's outcome.  Python return type `Optional[str]`: `none` embeds the
implicit `return None` reached when a 200 response lacks the expected
candidates/content/parts structure. -/
def generate_content (r : HttpOutcome) : Option String :=
  match r with
  | .requestError => some connectionErrorMsg
  | .unexpectedError => some unexpectedErrorMsg
  | .ok status data =>
      if status = 200 then
        match data.candidates with
        | some (c :: _) =>
            match c.content with
            | some content =>
                match content.parts with
                | some [] => some unexpectedErrorMsg
                | some (p :: _) =>
                    match p.text with
                    | some t => some t
                    | none => some unexpectedErrorMsg
                | none => none
            | none => none
        | some [] => none
        | none => none
      else if status = 429 then some quotaMsg
      else some apiErrorMsg

/-- A well-formed 200 body carrying generated text `t` (further candidates or
parts may follow). -/
def fullBody (t : String) (restParts : List GeminiPart)
    (restCandidates : List GeminiCandidate) : GeminiData :=
  { candidates :=
      some ({ content := some { parts := some ({ text := some t } :: restParts) } }
        :: restCandidates) }

/-- A 200 body that is missing the expected generated-text field in one of the
four ways that make `generate_content` fall through to `return None`: no
`'candidates'` key, an empty candidate list, a first candidate without
`'content'`, or a content without `'parts'`. -/
def missingField (d : GeminiData) : Prop :=
  d.candidates = none ∨ d.candidates = some [] ∨
    (∃ c rest, d.candidates = some (c :: rest) ∧ c.content = none) ∨
    (∃ c rest content, d.candidates = some (c :: rest) ∧
      c.content = some content ∧ content.parts = none)

/-!
Embedding of the `chat` route handler of `src/app_alternative.py`
(lines 45-87).  The handler:

* reads `data.get('message', '').strip()` — the handler below receives the
  already-stripped `user_message` (Python `str.strip` itself is not modelled;
  no property here depends on it);
* returns a 400 error for an empty message;
* if `app.gemini_client` is set, builds a prompt around the message and makes
  exactly one call to `generate_content` (the call count is returned so that
  external-call side effects are observable); the result — which may be
  Python `None` — is placed verbatim in the JSON reply as `ai_response`;
* if no client is configured, answers with a fixed message and makes no
  external call;
* best-effort persistence (`db.save_message`) does not affect the response
  and is not modelled.

The handler never consults `rate_limiter`: the module does not import
`src/rate_limiter.py` and no admission check appears in it.
-/

/-- The JSON replies the `chat` route can produce. -/
inductive ChatResponse where
  | badRequest (error : String)
  | okResp (user_message : String) (ai_response : Option String)
  | noClient (user_message : String) (ai_response : String)
deriving Repr, DecidableEq

/-- The fixed reply used when no Gemini client is configured. -/
def noClientMsg : String :=
  "AI service is not available. Please check the API key configuration."

/-- The `chat` route handler: `hasClient` is whether `app.gemini_client` is
set, `ext` is how the external interaction would go for this call, and
`user_message` the posted message after stripping.  Returns the reply
together with the number of `generate_content` calls made. -/
def chat (hasClient : Bool) (ext : HttpOutcome) (user_message : String) :
    ChatResponse × ℕ :=
  if user_message = "" then (.badRequest "Message cannot be empty", 0)
  else if hasClient then
    (.okResp user_message (generate_content ext), 1)
  else (.noClient user_message noClientMsg, 0)

/-!
Single-window views of the trace operations: `is_allowed` touches only the
checked key's deque, so a trace's effect on one key is an iteration of
`stepWindow` over that key's window.  The projection lemmas below make this
precise.
-/

/-- The verdicts of a sequence of single-window checks. -/
def stepChecks (maxR W : ℤ) (ws : List ℚ) : List ℚ → List Bool
  | [] => []
  | t :: ts =>
      let r := stepWindow maxR W t ws
      r.1 :: stepChecks maxR W r.2 ts

/-- The window after a sequence of single-window checks. -/
def stepRun (maxR W : ℤ) (ws : List ℚ) : List ℚ → List ℚ
  | [] => ws
  | t :: ts => stepRun maxR W (stepWindow maxR W t ws).2 ts

/-- The check times a sequence of single-window checks admits. -/
def stepAdmitted (maxR W : ℤ) (ws : List ℚ) : List ℚ → List ℚ
  | [] => []
  | t :: ts =>
      let r := stepWindow maxR W t ws
      (if r.1 then [t] else []) ++ stepAdmitted maxR W r.2 ts

/-- How many of the timestamps `A` lie inside the trailing interval
`(T - W, T]` — the window the purge condition `t <= now - time_window`
carves out at read time `T`. -/
def cntWin (W : ℤ) (A : List ℚ) (T : ℚ) : ℕ :=
  (A.filter (fun a => decide (T - W < a ∧ a ≤ T))).length

/-! ### Arithmetic facts about Python `int()` truncation -/

theorem pyTrunc_intCast (z : ℤ) : pyTrunc (z : ℚ) = z := by
  unfold pyTrunc
  split <;> simp

theorem pyTrunc_mono {x y : ℚ} (h : x ≤ y) : pyTrunc x ≤ pyTrunc y := by
  unfold pyTrunc
  rcases lt_or_le x 0 with hx | hx
  · rcases lt_or_le y 0 with hy | hy
    · simp only [if_pos hx, if_pos hy]
      exact Int.ceil_mono h
    · simp only [if_pos hx, if_neg (not_lt.2 hy)]
      have h1 : (⌈x⌉ : ℤ) ≤ 0 := Int.ceil_le.2 (by push_cast; linarith)
      have h2 : (0 : ℤ) ≤ ⌊y⌋ := Int.le_floor.2 (by exact_mod_cast hy)
      omega
  · have hy : ¬ y < 0 := not_lt.2 (hx.trans h)
    simp only [if_neg (not_lt.2 hx), if_neg hy]
    exact Int.floor_mono h

theorem pyTrunc_nonpos_iff {x : ℚ} : pyTrunc x ≤ 0 ↔ x < 1 := by
  unfold pyTrunc
  split
  · constructor
    · intro _
      linarith
    · intro _
      exact Int.ceil_le.2 (by push_cast; linarith)
  · rename_i hx
    push_neg at hx
    constructor
    · intro h
      have h1 : (⌊x⌋ : ℤ) < 1 := by omega
      have := Int.floor_lt.1 h1
      exact_mod_cast this
    · intro h
      have : (⌊x⌋ : ℤ) < 1 := Int.floor_lt.2 (by exact_mod_cast h)
      omega

theorem pyTrunc_pos_iff {x : ℚ} : 0 < pyTrunc x ↔ 1 ≤ x := by
  constructor
  · intro h
    by_contra hx
    push_neg at hx
    have := pyTrunc_nonpos_iff.2 hx
    omega
  · intro h
    by_contra h0
    push_neg at h0
    have := pyTrunc_nonpos_iff.1 h0
    linarith

theorem pyTrunc_sub_one {x : ℚ} (h : 1 ≤ x) : pyTrunc (x - 1) = pyTrunc x - 1 := by
  unfold pyTrunc
  have h0 : ¬ x < 0 := by linarith
  have h1 : ¬ x - 1 < 0 := by linarith
  rw [if_neg h0, if_neg h1]
  have : x - 1 = x - ((1 : ℤ) : ℚ) := by norm_num
  rw [this, Int.floor_sub_int]

/-! ### List helper lemmas -/

theorem filter_length_mono {α : Type} {p q : α → Bool} :
    ∀ {l : List α}, (∀ a ∈ l, p a = true → q a = true) →
      (l.filter p).length ≤ (l.filter q).length := by
  intro l
  induction l with
  | nil => intro _; simp
  | cons a l ih =>
      intro h
      by_cases hp : p a = true
      · rw [List.filter_cons_of_pos hp,
          List.filter_cons_of_pos (h a (by simp) hp)]
        simpa using ih (fun b hb => h b (by simp [hb]))
      · rw [List.filter_cons_of_neg (by simpa using hp)]
        have := ih (fun b hb => h b (by simp [hb]))
        by_cases hq : q a = true
        · rw [List.filter_cons_of_pos hq]
          exact this.trans (by simp)
        · rw [List.filter_cons_of_neg (by simpa using hq)]
          exact this

theorem dropWhile_le_eq_filter {cut : ℚ} :
    ∀ {l : List ℚ}, List.Pairwise (· ≤ ·) l →
      l.dropWhile (fun t => decide (t ≤ cut)) =
        l.filter (fun t => decide (cut < t)) := by
  intro l
  induction l with
  | nil => intro _; rfl
  | cons a l ih =>
      intro h
      rcases List.pairwise_cons.1 h with ⟨ha, hl⟩
      by_cases hc : a ≤ cut
      · rw [List.dropWhile_cons_of_pos (by simpa using hc),
          List.filter_cons_of_neg (by simpa using not_lt.2 hc)]
        exact ih hl
      · push_neg at hc
        rw [List.dropWhile_cons_of_neg (by simpa using not_le.2 hc),
          List.filter_cons_of_pos (by simpa using hc)]
        congr 1
        refine (List.filter_eq_self.2 ?_).symm
        intro b hb
        simpa using hc.trans_le (ha b hb)

/-! ### Key-to-window map lemmas -/

theorem lookupWindow_cons (p : String × List ℚ) (m : List (String × List ℚ))
    (k : String) :
    lookupWindow (p :: m) k = if p.1 = k then some p.2 else lookupWindow m k := by
  by_cases h : p.1 = k
  · simp [lookupWindow, List.find?_cons, h]
  · simp [lookupWindow, List.find?_cons, h]

theorem lookupWindow_append_of_none {m : List (String × List ℚ)} {k : String}
    (l : List (String × List ℚ)) (h : lookupWindow m k = none) :
    lookupWindow (m ++ l) k = lookupWindow l k := by
  induction m with
  | nil => simp
  | cons p m ih =>
      rw [List.cons_append, lookupWindow_cons]
      rw [lookupWindow_cons] at h
      by_cases hp : p.1 = k
      · simp [hp] at h
      · rw [if_neg hp] at h ⊢
        exact ih h

theorem lookupWindow_setWindow_self (m : List (String × List ℚ)) (k : String)
    (w : List ℚ) :
    lookupWindow (setWindow m k w) k = (lookupWindow m k).map (fun _ => w) := by
  induction m with
  | nil => simp [setWindow, lookupWindow]
  | cons p m ih =>
      by_cases hp : p.1 = k
      · simp [setWindow, lookupWindow_cons, hp]
      · simp only [setWindow, List.map_cons, if_neg hp] at *
        rw [lookupWindow_cons, lookupWindow_cons, if_neg hp, if_neg hp]
        exact ih

theorem lookupWindow_setWindow_ne (m : List (String × List ℚ)) {k k' : String}
    (w : List ℚ) (h : k' ≠ k) :
    lookupWindow (setWindow m k w) k' = lookupWindow m k' := by
  induction m with
  | nil => simp [setWindow]
  | cons p m ih =>
      by_cases hp : p.1 = k
      · have : ¬ (k = k') := fun he => h he.symm
        simp only [setWindow, List.map_cons, if_pos hp] at *
        rw [lookupWindow_cons, lookupWindow_cons]
        simp only [hp]
        rw [if_neg this, if_neg (by simpa [hp] using this)]
        exact ih
      · simp only [setWindow, List.map_cons, if_neg hp] at *
        rw [lookupWindow_cons, lookupWindow_cons]
        by_cases hpk : p.1 = k'
        · rw [if_pos hpk, if_pos hpk]
        · rw [if_neg hpk, if_neg hpk]
          exact ih

theorem length_setWindow (m : List (String × List ℚ)) (k : String) (w : List ℚ) :
    (setWindow m k w).length = m.length := by
  simp [setWindow]

/-! ### Projection of the limiter operations onto one key's window -/

theorem is_allowed_fst (rl : RateLimiter) (k : String) (t : ℚ) :
    (rl.is_allowed k t).1 =
      (stepWindow rl.max_requests rl.time_window t (windowOf rl k)).1 := by
  unfold RateLimiter.is_allowed windowOf ddGet
  cases h : lookupWindow rl.requests k <;> simp [h]

theorem is_allowed_snd_requests (rl : RateLimiter) (k : String) (t : ℚ) :
    (rl.is_allowed k t).2.requests =
      setWindow (ddGet rl.requests k).2 k
        (stepWindow rl.max_requests rl.time_window t (ddGet rl.requests k).1).2 := rfl

theorem is_allowed_max_requests (rl : RateLimiter) (k : String) (t : ℚ) :
    (rl.is_allowed k t).2.max_requests = rl.max_requests := rfl

theorem is_allowed_time_window (rl : RateLimiter) (k : String) (t : ℚ) :
    (rl.is_allowed k t).2.time_window = rl.time_window := rfl

theorem get_retry_after_fst (rl : RateLimiter) (k : String) (now : ℚ) :
    (rl.get_retry_after k now).1 = retryVal rl.time_window now (windowOf rl k) := by
  unfold RateLimiter.get_retry_after windowOf ddGet
  cases h : lookupWindow rl.requests k <;> simp [h]

theorem get_retry_after_max_requests (rl : RateLimiter) (k : String) (now : ℚ) :
    (rl.get_retry_after k now).2.max_requests = rl.max_requests := rfl

theorem get_retry_after_time_window (rl : RateLimiter) (k : String) (now : ℚ) :
    (rl.get_retry_after k now).2.time_window = rl.time_window := rfl

theorem windowOf_is_allowed_self (rl : RateLimiter) (k : String) (t : ℚ) :
    windowOf (rl.is_allowed k t).2 k =
      (stepWindow rl.max_requests rl.time_window t (windowOf rl k)).2 := by
  unfold windowOf
  rw [is_allowed_snd_requests, lookupWindow_setWindow_self]
  unfold ddGet
  cases h : lookupWindow rl.requests k with
  | none =>
      rw [lookupWindow_append_of_none _ h]
      simp [h, lookupWindow_cons]
  | some w => simp [h]

theorem lookupWindow_append_single_ne (m : List (String × List ℚ))
    {k k' : String} (w : List ℚ) (h : k' ≠ k) :
    lookupWindow (m ++ [(k, w)]) k' = lookupWindow m k' := by
  induction m with
  | nil =>
      simp only [List.nil_append, lookupWindow_cons]
      rw [if_neg (fun he => h he.symm)]
  | cons p m ih =>
      rw [List.cons_append, lookupWindow_cons, lookupWindow_cons]
      by_cases hp : p.1 = k'
      · rw [if_pos hp, if_pos hp]
      · rw [if_neg hp, if_neg hp]
        exact ih

theorem windowOf_is_allowed_ne (rl : RateLimiter) {k k' : String} (t : ℚ)
    (h : k' ≠ k) :
    windowOf (rl.is_allowed k t).2 k' = windowOf rl k' := by
  unfold windowOf
  rw [is_allowed_snd_requests, lookupWindow_setWindow_ne _ _ h]
  unfold ddGet
  cases hk : lookupWindow rl.requests k with
  | none => simp [lookupWindow_append_single_ne _ _ h]
  | some w => simp

theorem checksFor_eq_stepChecks (k : String) :
    ∀ (ts : List ℚ) (rl : RateLimiter),
      checksFor rl k ts =
        stepChecks rl.max_requests rl.time_window (windowOf rl k) ts := by
  intro ts
  induction ts with
  | nil => intro rl; rfl
  | cons t ts ih =>
      intro rl
      show (rl.is_allowed k t).1 :: checksFor (rl.is_allowed k t).2 k ts = _
      rw [ih (rl.is_allowed k t).2, is_allowed_max_requests, is_allowed_time_window,
        windowOf_is_allowed_self, is_allowed_fst]
      rfl

theorem runFor_max_requests (k : String) :
    ∀ (ts : List ℚ) (rl : RateLimiter),
      (runFor rl k ts).max_requests = rl.max_requests := by
  intro ts
  induction ts with
  | nil => intro rl; rfl
  | cons t ts ih =>
      intro rl
      show (runFor (rl.is_allowed k t).2 k ts).max_requests = _
      rw [ih, is_allowed_max_requests]

theorem runFor_time_window (k : String) :
    ∀ (ts : List ℚ) (rl : RateLimiter),
      (runFor rl k ts).time_window = rl.time_window := by
  intro ts
  induction ts with
  | nil => intro rl; rfl
  | cons t ts ih =>
      intro rl
      show (runFor (rl.is_allowed k t).2 k ts).time_window = _
      rw [ih, is_allowed_time_window]

theorem windowOf_runFor (k : String) :
    ∀ (ts : List ℚ) (rl : RateLimiter),
      windowOf (runFor rl k ts) k =
        stepRun rl.max_requests rl.time_window (windowOf rl k) ts := by
  intro ts
  induction ts with
  | nil => intro rl; rfl
  | cons t ts ih =>
      intro rl
      show windowOf (runFor (rl.is_allowed k t).2 k ts) k = _
      rw [ih (rl.is_allowed k t).2, is_allowed_max_requests, is_allowed_time_window,
        windowOf_is_allowed_self]
      rfl

theorem admittedFor_eq_stepAdmitted (k : String) :
    ∀ (evs : List (String × ℚ)) (rl : RateLimiter),
      admittedFor rl k evs =
        stepAdmitted rl.max_requests rl.time_window (windowOf rl k)
          ((evs.filter (fun e => decide (e.1 = k))).map Prod.snd) := by
  intro evs
  induction evs with
  | nil => intro rl; rfl
  | cons e evs ih =>
      intro rl
      rcases e with ⟨e1, t⟩
      show (if (rl.is_allowed e1 t).1 ∧ e1 = k then [t] else []) ++
          admittedFor (rl.is_allowed e1 t).2 k evs = _
      by_cases he : e1 = k
      · subst he
        rw [List.filter_cons_of_pos (by simp), List.map_cons]
        show _ = (if (stepWindow _ _ t (windowOf rl e1)).1 = true then [t] else []) ++
          stepAdmitted _ _ (stepWindow _ _ t (windowOf rl e1)).2 _
        rw [ih (rl.is_allowed e1 t).2, is_allowed_max_requests,
          is_allowed_time_window, windowOf_is_allowed_self, is_allowed_fst]
        by_cases hv : (stepWindow rl.max_requests rl.time_window t (windowOf rl e1)).1 = true
        · rw [if_pos hv, if_pos (by simp [hv])]
        · rw [if_neg hv, if_neg (by simp [hv])]
      · rw [List.filter_cons_of_neg (by simp [he]),
          if_neg (by simp [he]), List.nil_append]
        rw [ih (rl.is_allowed e1 t).2, is_allowed_max_requests,
          is_allowed_time_window, windowOf_is_allowed_ne rl t (fun hk => he hk.symm)]

/-! ### Purge and single-step characterizations -/

theorem purge_eq_self {cut : ℚ} {l : List ℚ} (h : ∀ x ∈ l, ¬ x ≤ cut) :
    purge cut l = l := by
  cases l with
  | nil => rfl
  | cons a l =>
      unfold purge
      rw [List.dropWhile_cons_of_neg (by simpa using h a (by simp))]

theorem purge_eq_nil {cut : ℚ} : ∀ {l : List ℚ}, (∀ x ∈ l, x ≤ cut) →
    purge cut l = [] := by
  intro l
  induction l with
  | nil => intro _; rfl
  | cons a l ih =>
      intro h
      unfold purge
      rw [List.dropWhile_cons_of_pos (by simpa using h a (by simp))]
      exact ih (fun x hx => h x (by simp [hx]))

theorem mem_purge {cut : ℚ} {l : List ℚ} {x : ℚ} (h : x ∈ purge cut l) :
    x ∈ l :=
  (List.dropWhile_sublist _).mem h

theorem purge_pairwise_eq_filter {cut : ℚ} {l : List ℚ}
    (h : List.Pairwise (· ≤ ·) l) :
    purge cut l = l.filter (fun x => decide (cut < x)) :=
  dropWhile_le_eq_filter h

theorem stepWindow_admits_eq {maxR W : ℤ} {now : ℚ} {ts : List ℚ}
    (hp : purge (now - (W : ℚ)) ts = ts') (hlt : ((ts' : List ℚ).length : ℤ) < maxR) :
    stepWindow maxR W now ts = (true, ts' ++ [now]) := by
  unfold stepWindow
  rw [hp, if_pos hlt]

theorem stepWindow_eq_deny {maxR W : ℤ} {now : ℚ} {ts ts' : List ℚ}
    (hp : purge (now - (W : ℚ)) ts = ts') (hge : ¬ ((ts'.length : ℤ) < maxR)) :
    stepWindow maxR W now ts = (false, ts') := by
  unfold stepWindow
  rw [hp, if_neg hge]

/-- A burst that fits the budget: as long as every time seen so far lies within
a band narrower than the window, nothing is purged and every check up to the
`max_requests` budget admits. -/
theorem stepChecks_all_true (maxR W : ℤ) (lo hi : ℚ) (hspan : hi - lo < W) :
    ∀ (ts done : List ℚ),
      (∀ x ∈ done, lo ≤ x ∧ x ≤ hi) → (∀ x ∈ ts, lo ≤ x ∧ x ≤ hi) →
      ((done.length : ℤ) + ts.length ≤ maxR) →
      stepChecks maxR W done ts = List.replicate ts.length true ∧
      stepRun maxR W done ts = done ++ ts := by
  intro ts
  induction ts with
  | nil =>
      intro done _ _ _
      exact ⟨rfl, by simp [stepRun]⟩
  | cons t ts ih =>
      intro done hdone hts hlen
      have ht := hts t (by simp)
      have hpurge : purge (t - (W : ℚ)) done = done := by
        apply purge_eq_self
        intro x hx
        have hx' := hdone x hx
        push_neg
        linarith [ht.2, hx'.1]
      have hlt : ((done.length : ℤ)) < maxR := by
        push_cast [List.length_cons] at hlen
        omega
      have hstep : stepWindow maxR W t done = (true, done ++ [t]) :=
        stepWindow_admits_eq hpurge hlt
      have hdone' : ∀ x ∈ done ++ [t], lo ≤ x ∧ x ≤ hi := by
        intro x hx
        rcases List.mem_append.1 hx with hx | hx
        · exact hdone x hx
        · rcases List.mem_singleton.1 hx with rfl
          exact ht
      have hts' : ∀ x ∈ ts, lo ≤ x ∧ x ≤ hi := fun x hx => hts x (by simp [hx])
      have hlen' : (((done ++ [t]).length : ℤ)) + ts.length ≤ maxR := by
        push_cast [List.length_append, List.length_cons, List.length_nil,
          List.length_singleton] at hlen ⊢
        omega
      have hrec := ih (done ++ [t]) hdone' hts' hlen'
      constructor
      · show (stepWindow maxR W t done).1 ::
          stepChecks maxR W (stepWindow maxR W t done).2 ts = _
        rw [hstep]
        simp only [List.length_cons, List.replicate_succ]
        exact congrArg _ hrec.1
      · show stepRun maxR W (stepWindow maxR W t done).2 ts = _
        rw [hstep]
        rw [hrec.2, List.append_assoc]
        rfl

/-! ### The sliding-window admission invariant -/

theorem cntWin_append (W : ℤ) (A B : List ℚ) (T : ℚ) :
    cntWin W (A ++ B) T = cntWin W A T + cntWin W B T := by
  simp [cntWin, List.filter_append]

/-- Core invariant induction: running further checks from a window that is the
fresh part (`c`-cut) of the already-admitted sorted history `A` keeps every
trailing interval's admitted count within the budget. -/
theorem stepAdmitted_cntWin (maxR W : ℤ) (hW : 0 < (W : ℚ)) :
    ∀ (ts A : List ℚ) (c : ℚ),
      List.Pairwise (· ≤ ·) A →
      (∀ a ∈ A, ∀ t ∈ ts, a ≤ t) →
      (∀ t ∈ ts, c ≤ t - W) →
      List.Pairwise (· ≤ ·) ts →
      (∀ T, ((cntWin W A T : ℤ)) ≤ maxR) →
      ∀ T, ((cntWin W
          (A ++ stepAdmitted maxR W (A.filter (fun a => decide (c < a))) ts) T : ℤ))
        ≤ maxR := by
  intro ts
  induction ts with
  | nil =>
      intro A c _ _ _ _ hcnt T
      simpa [stepAdmitted] using hcnt T
  | cons t ts ih =>
      intro A c hA hAts hcut hts hcnt T
      have hct : c ≤ t - W := hcut t (by simp)
      have hAt : ∀ a ∈ A, a ≤ t := fun a ha => hAts a ha t (by simp)
      have htts : ∀ t' ∈ ts, t ≤ t' := (List.pairwise_cons.1 hts).1
      have hts' : List.Pairwise (· ≤ ·) ts := (List.pairwise_cons.1 hts).2
      -- the purge turns the `c`-cut of `A` into the `t - W`-cut of `A`
      have hws : purge (t - (W : ℚ)) (A.filter (fun a => decide (c < a))) =
          A.filter (fun a => decide (t - (W : ℚ) < a)) := by
        rw [purge_pairwise_eq_filter (hA.filter _), List.filter_filter]
        apply List.filter_congr
        intro a _
        by_cases hta : t - (W : ℚ) < a
        · simp [hta, lt_of_le_of_lt hct hta]
        · simp [hta]
      by_cases hadm :
          (((A.filter (fun a => decide (t - (W : ℚ) < a))).length : ℤ)) < maxR
      -- admitted: the check appends `t`
      · have hstep : stepWindow maxR W t (A.filter (fun a => decide (c < a))) =
            (true, A.filter (fun a => decide (t - (W : ℚ) < a)) ++ [t]) :=
          stepWindow_admits_eq hws hadm
        have hfilA' : (A ++ [t]).filter (fun a => decide (t - (W : ℚ) < a)) =
            A.filter (fun a => decide (t - (W : ℚ) < a)) ++ [t] := by
          rw [List.filter_append]
          simp [show t - (W : ℚ) < t by linarith]
        have hA' : List.Pairwise (· ≤ ·) (A ++ [t]) := by
          rw [List.pairwise_append]
          exact ⟨hA, List.pairwise_singleton _ _,
            fun a ha b hb => (List.mem_singleton.1 hb) ▸ hAt a ha⟩
        have hA'ts : ∀ a ∈ A ++ [t], ∀ t' ∈ ts, a ≤ t' := by
          intro a ha t' ht'
          rcases List.mem_append.1 ha with ha | ha
          · exact hAts a ha t' (by simp [ht'])
          · rcases List.mem_singleton.1 ha with rfl
            exact htts t' ht'
        have hcut' : ∀ t' ∈ ts, t - (W : ℚ) ≤ t' - W := by
          intro t' ht'
          have := htts t' ht'
          linarith
        have hcnt' : ∀ T', ((cntWin W (A ++ [t]) T' : ℤ)) ≤ maxR := by
          intro T'
          rw [cntWin_append]
          by_cases hin : T' - (W : ℚ) < t ∧ t ≤ T'
          · have h1 : cntWin W A T' ≤
                (A.filter (fun a => decide (t - (W : ℚ) < a))).length := by
              apply filter_length_mono
              intro a _ hpa
              have hpa' := of_decide_eq_true hpa
              have : t - (W : ℚ) < a := by
                rcases hpa' with ⟨h1', h2'⟩
                have : t - (W : ℚ) ≤ T' - W := by linarith [hin.2]
                linarith
              simpa using this
            have h2 : cntWin W [t] T' ≤ 1 := by
              simp [cntWin, List.filter]
              split <;> simp
            push_cast
            omega
          · have h2 : cntWin W [t] T' = 0 := by
              simp only [cntWin, List.filter, decide_eq_true_eq]
              split
              · rename_i hcond
                exact absurd (of_decide_eq_true hcond) hin
              · rfl
            rw [h2]
            simpa using hcnt T'
        have hrec := ih (A ++ [t]) (t - W) hA' hA'ts hcut' hts' hcnt' T
        rw [hfilA'] at hrec
        show ((cntWin W (A ++
            ((if (stepWindow maxR W t (A.filter (fun a => decide (c < a)))).1
              then [t] else []) ++
              stepAdmitted maxR W
                (stepWindow maxR W t (A.filter (fun a => decide (c < a)))).2 ts)) T : ℤ))
          ≤ maxR
        rw [hstep]
        simpa [List.append_assoc] using hrec
      -- denied: nothing is appended
      · have hstep : stepWindow maxR W t (A.filter (fun a => decide (c < a))) =
            (false, A.filter (fun a => decide (t - (W : ℚ) < a))) :=
          stepWindow_eq_deny hws hadm
        have hcut' : ∀ t' ∈ ts, t - (W : ℚ) ≤ t' - W := by
          intro t' ht'
          have := htts t' ht'
          linarith
        have hA'ts : ∀ a ∈ A, ∀ t' ∈ ts, a ≤ t' :=
          fun a ha t' ht' => hAts a ha t' (by simp [ht'])
        have hrec := ih A (t - W) hA hA'ts hcut' hts' hcnt T
        show ((cntWin W (A ++
            ((if (stepWindow maxR W t (A.filter (fun a => decide (c < a)))).1
              then [t] else []) ++
              stepAdmitted maxR W
                (stepWindow maxR W t (A.filter (fun a => decide (c < a)))).2 ts)) T : ℤ))
          ≤ maxR
        rw [hstep]
        simpa using hrec

/-- C1: for every configuration, key and sequence of admission checks with
non-decreasing current times, at most `max_requests` of the checks that
returned `True` have their recorded timestamps inside any single trailing
interval `(T - time_window, T]` — the interval the purge condition
`t <= now - time_window` carves out.  The window never admits more than
`max_requests` calls within any `time_window`-wide trailing interval,
regardless of call pattern. -/
theorem C1_sliding_window_bound (maxR W : ℤ) (events : List (String × ℚ))
    (k : String) (T : ℚ) (hmax : 0 ≤ maxR) (hW : 0 < W)
    (hchain : List.Pairwise (· ≤ ·) (events.map Prod.snd)) :
    ((cntWin W (admittedFor ⟨maxR, W, []⟩ k events) T : ℤ)) ≤ maxR := by
  have hWq : 0 < (W : ℚ) := by exact_mod_cast hW
  rw [admittedFor_eq_stepAdmitted]
  show ((cntWin W (stepAdmitted maxR W []
      ((events.filter (fun e => decide (e.1 = k))).map Prod.snd)) T : ℤ)) ≤ maxR
  have hts : List.Pairwise (· ≤ ·)
      ((events.filter (fun e => decide (e.1 = k))).map Prod.snd) :=
    hchain.sublist ((List.filter_sublist _).map _)
  cases hcase : (events.filter (fun e => decide (e.1 = k))).map Prod.snd with
  | nil => simpa [stepAdmitted, cntWin] using hmax
  | cons t0 rest =>
      rw [hcase] at hts
      have hcut : ∀ t ∈ t0 :: rest, t0 - (W : ℚ) ≤ t - W := by
        intro t ht
        rcases List.mem_cons.1 ht with rfl | ht
        · linarith
        · have := (List.pairwise_cons.1 hts).1 t ht
          linarith
      have happ := stepAdmitted_cntWin maxR W hWq (t0 :: rest) [] (t0 - W)
        (by simp) (by intro a ha; simp at ha) hcut hts
        (by intro T'; simpa [cntWin] using hmax) T
      simpa using happ

/-- C1 witness: a concrete two-key trace under configuration
`max_requests = 2`, `time_window = 60`. -/
theorem C1_witness :
    (0 : ℤ) ≤ 2 ∧ (0 : ℤ) < 60 ∧
    List.Pairwise (· ≤ ·) ([("u", (0 : ℚ)), ("v", 1), ("u", 2)].map Prod.snd) ∧
    ((cntWin 60 (admittedFor ⟨2, 60, []⟩ "u"
        [("u", (0 : ℚ)), ("v", 1), ("u", 2)]) 2 : ℤ)) ≤ 2 :=
  ⟨by decide, by decide, by decide,
    C1_sliding_window_bound 2 60 _ "u" 2 (by decide) (by decide) (by decide)⟩

theorem stepWindow_deny_snd {maxR W : ℤ} {now : ℚ} {ts : List ℚ}
    (h : (stepWindow maxR W now ts).1 = false) :
    (stepWindow maxR W now ts).2 = purge (now - (W : ℚ)) ts := by
  by_cases hc : ((purge (now - (W : ℚ)) ts).length : ℤ) < maxR
  · rw [stepWindow_admits_eq rfl hc] at h
    simp at h
  · rw [stepWindow_eq_deny rfl hc]

/-- C6: if a check for a key at time `t` returns `Deny` (with a positive
budget and a window recorded in the past, as every reachable window is), then
the next check for that key at any time strictly later than
`t + time_window`, with no intervening checks, returns `Admit`: by then every
recorded timestamp is stale and the purge empties the window. -/
theorem C6_deny_then_allowed (rl : RateLimiter) (k : String) (t t' : ℚ)
    (hmax : 0 < rl.max_requests)
    (hpast : ∀ x ∈ windowOf rl k, x ≤ t)
    (hdeny : (rl.is_allowed k t).1 = false)
    (hlater : t + rl.time_window < t') :
    ((rl.is_allowed k t).2.is_allowed k t').1 = true := by
  rw [is_allowed_fst, is_allowed_max_requests, is_allowed_time_window,
    windowOf_is_allowed_self]
  rw [is_allowed_fst] at hdeny
  rw [stepWindow_deny_snd hdeny]
  have h2 : purge (t' - (rl.time_window : ℚ))
      (purge (t - (rl.time_window : ℚ)) (windowOf rl k)) = [] := by
    apply purge_eq_nil
    intro x hx
    have := hpast x (mem_purge hx)
    linarith
  rw [stepWindow_admits_eq h2 (by simpa using hmax)]

/-- C6 witness: one timestamp at `0`, budget `1`, window `60`: denied at `0`,
admitted at `61`. -/
theorem C6_witness :
    ((⟨1, 60, [("u", [(0 : ℚ)])]⟩ : RateLimiter).is_allowed "u" 0).1 = false ∧
    (((⟨1, 60, [("u", [(0 : ℚ)])]⟩ : RateLimiter).is_allowed "u" 0).2.is_allowed
      "u" 61).1 = true := by
  have hdeny :
      ((⟨1, 60, [("u", [(0 : ℚ)])]⟩ : RateLimiter).is_allowed "u" 0).1 = false := by
    norm_num [RateLimiter.is_allowed, ddGet, lookupWindow, setWindow,
      stepWindow, purge]
  exact ⟨hdeny,
    C6_deny_then_allowed _ "u" 0 61 (by decide)
      (by intro x hx; simp [windowOf, lookupWindow] at hx; simp [hx])
      hdeny (by norm_num)⟩

theorem stepChecks_append (maxR W : ℤ) :
    ∀ (l₁ l₂ ws : List ℚ),
      stepChecks maxR W ws (l₁ ++ l₂) =
        stepChecks maxR W ws l₁ ++
          stepChecks maxR W (stepRun maxR W ws l₁) l₂ := by
  intro l₁
  induction l₁ with
  | nil => intro l₂ ws; rfl
  | cons t l₁ ih =>
      intro l₂ ws
      show (stepWindow maxR W t ws).1 ::
          stepChecks maxR W (stepWindow maxR W t ws).2 (l₁ ++ l₂) = _
      rw [ih]
      rfl

theorem stepRun_append (maxR W : ℤ) :
    ∀ (l₁ l₂ ws : List ℚ),
      stepRun maxR W ws (l₁ ++ l₂) =
        stepRun maxR W (stepRun maxR W ws l₁) l₂ := by
  intro l₁
  induction l₁ with
  | nil => intro l₂ ws; rfl
  | cons t l₁ ih =>
      intro l₂ ws
      show stepRun maxR W (stepWindow maxR W t ws).2 (l₁ ++ l₂) = _
      rw [ih]
      rfl

/-- C4 (amended): from an empty window, `max_requests + 1` checks for one key
with non-decreasing times all within less than `time_window` of each other:
the first `max_requests` return `Admit` and the last returns `Deny`.  The
accompanying `retry_after` is `≥ 0`; it is strictly positive provided the
denial comes within `time_window - 1` seconds of the first check — `int()`
truncation makes it `0` during the last second of the window, so the claim's
unconditional `retry_after > 0` does not hold. -/
theorem C4_burst_amended (mid : List ℚ) (t0 tlast : ℚ) (W : ℤ) (k : String)
    (hW : 0 < W)
    (hchain : List.Pairwise (· ≤ ·) (t0 :: mid ++ [tlast]))
    (hspan : tlast - t0 < (W : ℚ)) :
    checksFor ⟨(mid.length + 1 : ℤ), W, []⟩ k (t0 :: mid ++ [tlast]) =
      List.replicate (mid.length + 1) true ++ [false] ∧
    0 ≤ ((runFor ⟨(mid.length + 1 : ℤ), W, []⟩ k
        (t0 :: mid ++ [tlast])).get_retry_after k tlast).1 ∧
    (tlast - t0 ≤ (W : ℚ) - 1 →
      0 < ((runFor ⟨(mid.length + 1 : ℤ), W, []⟩ k
        (t0 :: mid ++ [tlast])).get_retry_after k tlast).1) := by
  have hWq : 0 < (W : ℚ) := by exact_mod_cast hW
  rcases List.pairwise_cons.1 hchain with ⟨ht0, hrest⟩
  rcases List.pairwise_append.1 hrest with ⟨hmid, _, hcross⟩
  have ht0last : t0 ≤ tlast := ht0 tlast (by simp)
  have hbound : ∀ x ∈ t0 :: mid, t0 ≤ x ∧ x ≤ tlast := by
    intro x hx
    rcases List.mem_cons.1 hx with rfl | hx
    · exact ⟨le_refl _, ht0last⟩
    · exact ⟨ht0 x (by simp [hx]), hcross x hx tlast (by simp)⟩
  have hburst := stepChecks_all_true ((mid.length : ℤ) + 1) W t0 tlast hspan
    (t0 :: mid) [] (by intro x hx; simp at hx) hbound
    (by simp)
  have hpurge_last : purge (tlast - (W : ℚ)) (t0 :: mid) = t0 :: mid := by
    apply purge_eq_self
    intro x hx
    have hb := hbound x hx
    push_neg
    linarith [hb.1]
  have hdeny : stepWindow ((mid.length : ℤ) + 1) W tlast (t0 :: mid) =
      (false, t0 :: mid) := by
    apply stepWindow_eq_deny hpurge_last
    push_cast [List.length_cons]
    omega
  have hlist : t0 :: mid ++ [tlast] = (t0 :: mid) ++ [tlast] := rfl
  have hlast : stepChecks ((mid.length : ℤ) + 1) W
      (stepRun ((mid.length : ℤ) + 1) W [] (t0 :: mid)) [tlast] = [false] := by
    rw [hburst.2, List.nil_append]
    show (stepWindow ((mid.length : ℤ) + 1) W tlast (t0 :: mid)).1 ::
      stepChecks ((mid.length : ℤ) + 1) W
        (stepWindow ((mid.length : ℤ) + 1) W tlast (t0 :: mid)).2 [] = [false]
    rw [hdeny]
    rfl
  have hchecks : checksFor ⟨(mid.length + 1 : ℤ), W, []⟩ k (t0 :: mid ++ [tlast]) =
      List.replicate (mid.length + 1) true ++ [false] := by
    rw [checksFor_eq_stepChecks]
    show stepChecks ((mid.length : ℤ) + 1) W [] ((t0 :: mid) ++ [tlast]) = _
    rw [stepChecks_append, hburst.1, hlast]
    simp [List.length_cons]
  have hwindow : windowOf (runFor ⟨(mid.length + 1 : ℤ), W, []⟩ k
      (t0 :: mid ++ [tlast])) k = t0 :: mid := by
    rw [windowOf_runFor]
    show stepRun ((mid.length : ℤ) + 1) W [] ((t0 :: mid) ++ [tlast]) = _
    rw [stepRun_append, hburst.2, List.nil_append]
    show stepRun ((mid.length : ℤ) + 1) W
      (stepWindow ((mid.length : ℤ) + 1) W tlast (t0 :: mid)).2 [] = _
    rw [hdeny]
    rfl
  have hval : ((runFor ⟨(mid.length + 1 : ℤ), W, []⟩ k
      (t0 :: mid ++ [tlast])).get_retry_after k tlast).1 =
      max 0 (pyTrunc ((W : ℚ) - (tlast - t0))) := by
    rw [get_retry_after_fst, runFor_time_window, hwindow]
    rfl
  refine ⟨hchecks, ?_, ?_⟩
  · rw [hval]
    exact le_max_left _ _
  · intro hclose
    rw [hval]
    have h1 : (1 : ℚ) ≤ (W : ℚ) - (tlast - t0) := by linarith
    exact lt_of_lt_of_le (pyTrunc_pos_iff.2 h1) (le_max_right _ _)

/-- C4 counterexample: with `max_requests = 1`, `time_window = 60`, checks at
times `0` and `59.5` (within less than `60` of each other), the second check
is denied but `get_retry_after` reports `0`, not a strictly positive wait:
`int(60 - 59.5) = 0`. -/
theorem C4_counterexample :
    checksFor ⟨1, 60, []⟩ "u" [(0 : ℚ), 119/2] = [true, false] ∧
    ((runFor ⟨1, 60, []⟩ "u" [(0 : ℚ), 119/2]).get_retry_after "u" (119/2)).1 = 0 := by
  constructor <;>
    norm_num [checksFor, runFor, RateLimiter.is_allowed,
      RateLimiter.get_retry_after, ddGet, lookupWindow, setWindow, stepWindow,
      purge, retryVal, pyTrunc, Int.floor_eq_zero_iff, Set.mem_Ico]

/-- C4 witness: `max_requests = 1`, checks at `0` and `1`: admit then deny
with a positive `retry_after`. -/
theorem C4_witness :
    checksFor ⟨1, 60, []⟩ "v" [(0 : ℚ), 1] = [true, false] ∧
    0 < ((runFor ⟨1, 60, []⟩ "v" [(0 : ℚ), 1]).get_retry_after "v" 1).1 := by
  have h := C4_burst_amended [] 0 1 60 "v" (by decide) (by decide) (by norm_num)
  constructor
  · have h1 := h.1
    simpa using h1
  · have h2 := h.2.2 (by norm_num)
    simpa using h2

/-- C5 (amended): for a key whose window is non-empty with oldest timestamp
`oldest`, `get_retry_after` at time `now` returns
`max(0, int(time_window - (now - oldest)))` — the spec's formula passed
through Python's `int()` truncation.  The value is always `≥ 0` and
non-increasing as the query time advances (not strictly decreasing: queries
less than one second apart can repeat a value); it does decrease strictly
across a full-second step while still positive, and it reaches `0` exactly
once `now - oldest` exceeds `time_window - 1` — up to one second before
`oldest` actually ages out of the window. -/
theorem C5_retry_after_amended (rl : RateLimiter) (k : String)
    (oldest : ℚ) (rest : List ℚ) (now now' : ℚ)
    (h : windowOf rl k = oldest :: rest) :
    (rl.get_retry_after k now).1 =
      max 0 (pyTrunc ((rl.time_window : ℚ) - (now - oldest))) ∧
    0 ≤ (rl.get_retry_after k now).1 ∧
    (now ≤ now' → (rl.get_retry_after k now').1 ≤ (rl.get_retry_after k now).1) ∧
    (now + 1 ≤ now' → 0 < (rl.get_retry_after k now).1 →
      (rl.get_retry_after k now').1 < (rl.get_retry_after k now).1) ∧
    ((rl.get_retry_after k now).1 = 0 ↔
      (rl.time_window : ℚ) - 1 < now - oldest) := by
  have hv : ∀ m : ℚ, (rl.get_retry_after k m).1 =
      max 0 (pyTrunc ((rl.time_window : ℚ) - (m - oldest))) := by
    intro m
    rw [get_retry_after_fst, h]
    rfl
  refine ⟨hv now, ?_, ?_, ?_, ?_⟩
  · rw [hv now]
    exact le_max_left _ _
  · intro hle
    rw [hv now, hv now']
    exact max_le_max (le_refl 0) (pyTrunc_mono (by linarith))
  · intro hstep hpos
    rw [hv now] at hpos ⊢
    rw [hv now']
    have hx : (1 : ℚ) ≤ (rl.time_window : ℚ) - (now - oldest) := by
      by_contra hc
      push_neg at hc
      have := pyTrunc_nonpos_iff.2 hc
      have hmax0 : max 0 (pyTrunc ((rl.time_window : ℚ) - (now - oldest))) = 0 :=
        max_eq_left this
      omega
    have h1 : 1 ≤ pyTrunc ((rl.time_window : ℚ) - (now - oldest)) := by
      have := pyTrunc_pos_iff.2 hx
      omega
    calc max 0 (pyTrunc ((rl.time_window : ℚ) - (now' - oldest)))
        ≤ max 0 (pyTrunc (((rl.time_window : ℚ) - (now - oldest)) - 1)) :=
          max_le_max (le_refl 0) (pyTrunc_mono (by linarith))
      _ = max 0 (pyTrunc ((rl.time_window : ℚ) - (now - oldest)) - 1) := by
          rw [pyTrunc_sub_one hx]
      _ < max 0 (pyTrunc ((rl.time_window : ℚ) - (now - oldest))) := by
          rw [max_eq_right (by omega : (0:ℤ) ≤ pyTrunc ((rl.time_window : ℚ) - (now - oldest)) - 1),
            max_eq_right (by omega : (0:ℤ) ≤ pyTrunc ((rl.time_window : ℚ) - (now - oldest)))]
          omega
  · rw [hv now]
    constructor
    · intro h0
      have ht : pyTrunc ((rl.time_window : ℚ) - (now - oldest)) ≤ 0 := by
        by_contra hc
        push_neg at hc
        rw [max_eq_right hc.le] at h0
        omega
      have := pyTrunc_nonpos_iff.1 ht
      linarith
    · intro hlt
      have hx : (rl.time_window : ℚ) - (now - oldest) < 1 := by linarith
      exact max_eq_left (pyTrunc_nonpos_iff.2 hx)

/-- C5 counterexample: one timestamp at `0`, `time_window = 60`; over the
strictly increasing query times `0.5 < 0.75` the returned value stays `59`
(int truncation), so it is not strictly decreasing, and it differs from the
spec's exact `max(0, 60 - 0.5) = 59.5`. -/
theorem C5_counterexample :
    ((1 : ℚ)/2 < 3/4) ∧
    ((⟨5, 60, [("u", [(0 : ℚ)])]⟩ : RateLimiter).get_retry_after "u" (1/2)).1 = 59 ∧
    ((⟨5, 60, [("u", [(0 : ℚ)])]⟩ : RateLimiter).get_retry_after "u" (3/4)).1 = 59 := by
  refine ⟨by norm_num, ?_, ?_⟩ <;>
    norm_num [RateLimiter.get_retry_after, ddGet, lookupWindow, retryVal,
      pyTrunc, Int.floor_eq_iff]

/-- C5 witness: one timestamp at `0`, queries at `0` and `30`. -/
theorem C5_witness :
    0 ≤ ((⟨5, 60, [("u", [(0 : ℚ)])]⟩ : RateLimiter).get_retry_after "u" 0).1 ∧
    ((⟨5, 60, [("u", [(0 : ℚ)])]⟩ : RateLimiter).get_retry_after "u" 30).1 <
      ((⟨5, 60, [("u", [(0 : ℚ)])]⟩ : RateLimiter).get_retry_after "u" 0).1 := by
  have h := C5_retry_after_amended ⟨5, 60, [("u", [(0 : ℚ)])]⟩ "u" 0 [] 0 30
    (by simp [windowOf, lookupWindow])
  have hnz : ¬ ((⟨5, 60, [("u", [(0 : ℚ)])]⟩ : RateLimiter).get_retry_after
      "u" 0).1 = 0 := by
    rw [h.2.2.2.2]
    norm_num
  exact ⟨h.2.1, h.2.2.2.1 (by norm_num)
    (lt_of_le_of_ne h.2.1 (fun he => hnz he.symm))⟩

/-- C10: assuming every timestamp of the queried key's window lies in the
past and the configured window is non-negative, `get_retry_after` returns an
integer in `[0, time_window]`; for an empty or absent window it returns `0`;
and it removes nothing: every key's stored window is unchanged (the queried
key's is re-stored as-is, materialising as `[]` when it was absent — the
defaultdict insertion). -/
theorem C10_get_retry_after_bounds (rl : RateLimiter) (k : String) (now : ℚ)
    (hW : 0 ≤ rl.time_window)
    (hts : ∀ t ∈ windowOf rl k, t ≤ now) :
    0 ≤ (rl.get_retry_after k now).1 ∧
    (rl.get_retry_after k now).1 ≤ rl.time_window ∧
    (windowOf rl k = [] → (rl.get_retry_after k now).1 = 0) ∧
    (∀ k', lookupWindow (rl.get_retry_after k now).2.requests k' =
      if k' = k then some (windowOf rl k) else lookupWindow rl.requests k') := by
  have hfst := get_retry_after_fst rl k now
  refine ⟨?_, ?_, ?_, ?_⟩
  · rw [hfst]
    cases hwin : windowOf rl k with
    | nil => simp [retryVal]
    | cons o rest => simp [retryVal]
  · rw [hfst]
    cases hwin : windowOf rl k with
    | nil => simpa [retryVal] using hW
    | cons o rest =>
        have ho : o ≤ now := hts o (by simp [hwin])
        show max 0 (pyTrunc ((rl.time_window : ℚ) - (now - o))) ≤ rl.time_window
        apply max_le hW
        calc pyTrunc ((rl.time_window : ℚ) - (now - o))
            ≤ pyTrunc ((rl.time_window : ℚ)) := pyTrunc_mono (by linarith)
          _ = rl.time_window := pyTrunc_intCast _
  · intro hwin
    rw [hfst, hwin]
    rfl
  · intro k'
    show lookupWindow (ddGet rl.requests k).2 k' = _
    unfold ddGet
    cases hl : lookupWindow rl.requests k with
    | some w =>
        by_cases hk : k' = k
        · subst hk
          simp [windowOf, hl]
        · simp [if_neg hk]
    | none =>
        by_cases hk : k' = k
        · subst hk
          rw [if_pos rfl]
          show lookupWindow (rl.requests ++ [(k', [])]) k' = _
          rw [lookupWindow_append_of_none _ hl, lookupWindow_cons]
          simp [windowOf, hl]
        · rw [if_neg hk]
          show lookupWindow (rl.requests ++ [(k, [])]) k' = _
          exact lookupWindow_append_single_ne _ _ hk

/-- C10 witness: one timestamp at `5`, queried at `10`. -/
theorem C10_witness :
    0 ≤ ((⟨5, 60, [("u", [(5 : ℚ)])]⟩ : RateLimiter).get_retry_after "u" 10).1 ∧
    ((⟨5, 60, [("u", [(5 : ℚ)])]⟩ : RateLimiter).get_retry_after "u" 10).1 ≤ 60 ∧
    lookupWindow ((⟨5, 60, [("u", [(5 : ℚ)])]⟩ : RateLimiter).get_retry_after
      "u" 10).2.requests "u" = some [(5 : ℚ)] := by
  have h := C10_get_retry_after_bounds ⟨5, 60, [("u", [(5 : ℚ)])]⟩ "u" 10
    (by decide)
    (by
      intro t ht
      simp [windowOf, lookupWindow] at ht
      rw [ht]
      norm_num)
  refine ⟨h.1, h.2.1, ?_⟩
  have h4 := h.2.2.2 "u"
  rw [if_pos rfl] at h4
  simpa [windowOf, lookupWindow] using h4

/-- C9: reading an unseen key through the `defaultdict` inserts an entry into
the shared map: after `is_allowed` the key is present, and `get_retry_after`
— a pure query in the spec's model — also inserts an (empty) window for the
key, growing the map by one entry even though nothing was admitted. -/
theorem C9_defaultdict_insertion (rl : RateLimiter) (k : String) (now : ℚ)
    (h : lookupWindow rl.requests k = none) :
    (lookupWindow (rl.is_allowed k now).2.requests k).isSome ∧
    lookupWindow (rl.get_retry_after k now).2.requests k = some [] ∧
    (rl.get_retry_after k now).2.requests.length = rl.requests.length + 1 := by
  have hadd : lookupWindow (rl.requests ++ [(k, [])]) k = some [] := by
    rw [lookupWindow_append_of_none _ h, lookupWindow_cons]
    simp
  refine ⟨?_, ?_, ?_⟩
  · rw [is_allowed_snd_requests, lookupWindow_setWindow_self]
    unfold ddGet
    rw [h]
    simp [hadd]
  · show lookupWindow (ddGet rl.requests k).2 k = some []
    unfold ddGet
    rw [h]
    exact hadd
  · show (ddGet rl.requests k).2.length = _
    unfold ddGet
    rw [h]
    simp

/-- C9 witness: the module-level `rate_limiter` starts with an empty map; a
single `get_retry_after` for an unseen key grows it. -/
theorem C9_witness :
    (lookupWindow (rate_limiter.is_allowed "x" 0).2.requests "x").isSome ∧
    lookupWindow (rate_limiter.get_retry_after "x" 0).2.requests "x" = some [] ∧
    (rate_limiter.get_retry_after "x" 0).2.requests.length =
      rate_limiter.requests.length + 1 :=
  C9_defaultdict_insertion rate_limiter "x" 0 (by decide)

/-- C8 counterexample: `RateLimiter()` constructed without explicit arguments
has `max_requests = 10`, not `5` — the default in `__init__` is `10`; `5` is
only what the module-level instance passes explicitly. -/
theorem C8_counterexample :
    RateLimiter.defaultInit.max_requests = 10 ∧
    RateLimiter.defaultInit.max_requests ≠ 5 := by decide

/-- C8 (amended): a controller constructed without explicit arguments has
`max_requests = 10` and `time_window = 60`; the module-level shared instance
`rate_limiter` is constructed with explicit `max_requests = 5`,
`time_window = 60`; and both configuration fields are unchanged by every
`is_allowed` and `get_retry_after` call, so they stay fixed for the
controller's lifetime. -/
theorem C8_defaults_amended :
    RateLimiter.defaultInit.max_requests = 10 ∧
    RateLimiter.defaultInit.time_window = 60 ∧
    rate_limiter.max_requests = 5 ∧
    rate_limiter.time_window = 60 ∧
    (∀ (rl : RateLimiter) (k : String) (t : ℚ),
      (rl.is_allowed k t).2.max_requests = rl.max_requests ∧
      (rl.is_allowed k t).2.time_window = rl.time_window ∧
      (rl.get_retry_after k t).2.max_requests = rl.max_requests ∧
      (rl.get_retry_after k t).2.time_window = rl.time_window) :=
  ⟨rfl, rfl, rfl, rfl, fun _ _ _ => ⟨rfl, rfl, rfl, rfl⟩⟩

/-- C2 counterexample: a successful (200) response whose body has no
`candidates` key makes `generate_content` return Python `None` — not a
classified outcome carrying a non-empty string. -/
theorem C2_counterexample :
    generate_content (.ok 200 { candidates := none }) = none := rfl

/-- C2 (amended): `generate_content` never raises and classifies
success-with-text (the text verbatim), quota status 429, any other
non-success status, and connection/timeout failures, each of the three
fallback messages being a fixed non-empty string — but on a success status
whose body is missing the generated-text structure it returns `None`, not a
variant with non-empty text. -/
theorem C2_classification_amended :
    (∀ (t : String) (rp : List GeminiPart) (rc : List GeminiCandidate),
      generate_content (.ok 200 (fullBody t rp rc)) = some t) ∧
    (∀ d : GeminiData, generate_content (.ok 429 d) = some quotaMsg) ∧
    (∀ (s : ℤ) (d : GeminiData), s ≠ 200 → s ≠ 429 →
      generate_content (.ok s d) = some apiErrorMsg) ∧
    generate_content .requestError = some connectionErrorMsg ∧
    (∀ d : GeminiData, missingField d → generate_content (.ok 200 d) = none) ∧
    quotaMsg ≠ "" ∧ apiErrorMsg ≠ "" ∧ connectionErrorMsg ≠ "" := by
  refine ⟨?_, ?_, ?_, rfl, ?_, by decide, by decide, by decide⟩
  · intro t rp rc
    rfl
  · intro d
    rfl
  · intro s d h200 h429
    show (if s = 200 then _ else if s = 429 then _ else some apiErrorMsg) = _
    rw [if_neg h200, if_neg h429]
  · intro d hd
    rcases hd with h1 | h2 | ⟨c, rest, hc, hcc⟩ | ⟨c, rest, content, hc, hcc, hp⟩
    · simp [generate_content, h1]
    · simp [generate_content, h2]
    · simp [generate_content, hc, hcc]
    · simp [generate_content, hc, hcc, hp]

/-- C2 witness: one concrete input per hypothesis-bearing branch. -/
theorem C2_witness :
    generate_content (.ok 500 { candidates := none }) = some apiErrorMsg ∧
    generate_content (.ok 200 (fullBody "hello" [] [])) = some "hello" ∧
    generate_content (.ok 200 { candidates := some [] }) = none :=
  ⟨C2_classification_amended.2.2.1 500 _ (by decide) (by decide),
   C2_classification_amended.1 "hello" [] [],
   C2_classification_amended.2.2.2.2.1 _ (Or.inr (Or.inl rfl))⟩

/-- C7 counterexample: a 200 response whose first candidate has no `content`
key: `generate_content` returns `None`, not the claimed
`"unexpected response from service"` fallback (that string appears nowhere in
the source). -/
theorem C7_counterexample :
    generate_content (.ok 200 { candidates := some [{ content := none }] }) =
      none ∧
    generate_content (.ok 200 { candidates := some [{ content := none }] }) ≠
      some "unexpected response from service" := by
  exact ⟨rfl, by decide⟩

/-- C7 (amended): for every 200 response body missing the expected
generated-text structure (no `candidates`, empty `candidates`, first
candidate without `content`, or `content` without `parts`),
`generate_content` falls through its `if` chain and returns Python `None` —
no fallback text is produced for this case. -/
theorem C7_missing_field_amended (d : GeminiData) (hd : missingField d) :
    generate_content (.ok 200 d) = none := by
  rcases hd with h1 | h2 | ⟨c, rest, hc, hcc⟩ | ⟨c, rest, content, hc, hcc, hp⟩
  · simp [generate_content, h1]
  · simp [generate_content, h2]
  · simp [generate_content, hc, hcc]
  · simp [generate_content, hc, hcc, hp]

/-- C7 witness: a 200 body whose `content` has no `parts` key. -/
theorem C7_witness :
    generate_content (.ok 200
      { candidates := some [{ content := some { parts := none } }] }) = none :=
  C7_missing_field_amended _
    (Or.inr (Or.inr (Or.inr ⟨_, _, _, rfl, rfl, rfl⟩)))

/-- C3: the `chat` handler of `src/app_alternative.py` never consults the
admission controller (`src/rate_limiter.py` is not even imported there).  At
a state where the limiter denies the `"default"` key — five timestamps
younger than the window — a chat call with a configured client still makes
exactly one external call and returns the client's text verbatim; no
`RateLimited` outcome or fixed retry message exists anywhere in the handler,
contradicting the claim that a denied key short-circuits before the external
call. -/
theorem C3_no_admission_gate :
    ((⟨5, 60, [("default", [(1 : ℚ), 1, 1, 1, 1])]⟩ : RateLimiter).is_allowed
      "default" 1).1 = false ∧
    (chat true (.ok 200 (fullBody "Hello!" [] [])) "hi").2 = 1 ∧
    (chat true (.ok 200 (fullBody "Hello!" [] [])) "hi").1 =
      ChatResponse.okResp "hi" (some "Hello!") := by
  refine ⟨?_, rfl, rfl⟩
  norm_num [RateLimiter.is_allowed, ddGet, lookupWindow, setWindow,
    stepWindow, purge]
